import Mathlib

/-!
Verification development for the OpenIDM multi-segment download engine.

The definitions below are a shallow embedding of the engine sources:
`include/openidm/engine/Types.h`, `include/openidm/engine/Segment.h`,
`src/engine/SegmentScheduler.cpp`, `src/engine/SegmentWorker.cpp`,
`src/engine/DownloadTask.cpp` and `src/engine/DownloadManager.cpp`.
Machine integers (`int64_t` byte offsets and counts) are modelled as `Int`;
the quantities involved stay far below `2^63`, so overflow never occurs on the
inputs considered and plain integers are faithful.  Pointer collections
(`std::set<Segment*>`, `std::deque<Segment*>`) are modelled as lists of
segment ids indexing into the scheduler's owning `segments` list.
-/

namespace OpenIDM

/-- `SegmentState` from Types.h. -/
inductive SegmentState where
  | Pending
  | Active
  | Paused
  | Completed
  | Failed
  | Stolen
deriving DecidableEq, Repr

/-- `DownloadState` from Types.h. -/
inductive DownloadState where
  | Queued
  | Probing
  | Downloading
  | Paused
  | Merging
  | Verifying
  | Completed
  | Failed
deriving DecidableEq, Repr

/-- `ErrorCategory` from Types.h. -/
inductive ErrorCategory where
  | NoError
  | Network
  | ServerError
  | ClientError
  | FileSystem
  | Checksum
  | Cancelled
  | Timeout
  | SSLError
  | Unknown
deriving DecidableEq, Repr

namespace Constants

/-- `Constants::MAX_SEGMENTS` (Types.h). -/
def MAX_SEGMENTS : Nat := 32

/-- `Constants::MIN_SEGMENTS` (Types.h). -/
def MIN_SEGMENTS : Nat := 1

/-- `Constants::MIN_SEGMENT_SIZE` = 1 MiB (Types.h). -/
def MIN_SEGMENT_SIZE : Int := 1 * 1024 * 1024

/-- `Constants::MIN_STEAL_SIZE` = 512 KiB (Types.h). -/
def MIN_STEAL_SIZE : Int := 512 * 1024

/-- `Constants::MAX_RETRIES` (Types.h). -/
def MAX_RETRIES : Nat := 5

end Constants

/-- The empty error message (`QString` default). -/
def noMsg : String := ""

/-- `class Segment` (Segment.h): byte range with progress and retry data.
`checksum` and `tempFilePath` are omitted; no claim depends on them. -/
structure Segment where
  id : Nat
  startByte : Int
  endByte : Int
  currentByte : Int
  state : SegmentState
  retryCount : Nat
  lastError : String
deriving DecidableEq, Repr

namespace Segment

/-- `Segment::totalSize`. -/
def totalSize (s : Segment) : Int := s.endByte - s.startByte + 1

/-- `Segment::downloadedBytes`. -/
def downloadedBytes (s : Segment) : Int := s.currentByte - s.startByte

/-- `Segment::remainingBytes`. -/
def remainingBytes (s : Segment) : Int := s.endByte - s.currentByte + 1

/-- `Segment::advanceBy`: `m_currentByte.fetch_add(bytes) + bytes`. -/
def advanceBy (s : Segment) (bytes : Int) : Segment :=
  { s with currentByte := s.currentByte + bytes }

/-- `Segment::setState`. -/
def setState (s : Segment) (st : SegmentState) : Segment := { s with state := st }

/-- `Segment::setLastError`. -/
def setLastError (s : Segment) (msg : String) : Segment := { s with lastError := msg }

/-- `Segment::incrementRetry`. -/
def incrementRetry (s : Segment) : Segment := { s with retryCount := s.retryCount + 1 }

/-- `Segment::canRetry`: `m_retryCount < Constants::MAX_RETRIES`. -/
def canRetry (s : Segment) : Bool := s.retryCount < Constants.MAX_RETRIES

/-- `Segment::isSplittable`: `remainingBytes() >= minSize * 2`. -/
def isSplittable (s : Segment) (minSize : Int := Constants.MIN_STEAL_SIZE) : Bool :=
  s.remainingBytes ≥ minSize * 2

/-- Modelled from the spec: the body of the three-argument `Segment`
constructor lives in `Segment.cpp`, which is not among the sources; per the
spec's data model (`downloaded = current_byte − start`, initially zero, and
`start ≤ current_byte`) a fresh segment starts with `current_byte = start`,
state `Pending` and retry count 0. -/
def make (id : Nat) (startByte endByte : Int) : Segment :=
  { id := id, startByte := startByte, endByte := endByte, currentByte := startByte,
    state := SegmentState.Pending, retryCount := 0, lastError := noMsg }

/-- Modelled from the spec: `Segment::split` is declared in Segment.h but its
body is in the absent `Segment.cpp`.  Per spec §4.1 ("Midpoint = `current_byte
+ remaining/2`.  Donor's new end = `midpoint − 1`; new segment covers
`[midpoint, original_end]`", the new owner "starts exactly at `midpoint`") and
the header's doc comment ("This segment's end is updated to midpoint-1; New
segment covers midpoint to original end; ... or nullopt if not splittable"),
it returns the mutated donor together with the new segment, or `none` when
the segment is not splittable. -/
def split (s : Segment) (newId : Nat) : Option (Segment × Segment) :=
  if s.isSplittable then
    let midpoint := s.currentByte + s.remainingBytes / 2
    let donor := { s with endByte := midpoint - 1 }
    let upper := make newId midpoint s.endByte
    some (donor, upper)
  else
    none

/-- The invariant `start ≤ current_byte ≤ end + 1` stated by the spec. -/
def invariantHolds (s : Segment) : Bool :=
  s.startByte ≤ s.currentByte && s.currentByte ≤ s.endByte + 1

end Segment

/-!
## Segment worker write callback

`SegmentWorker::writeCallback` (SegmentWorker.cpp, lines 429-462).  The
callback receives a buffer of `totalSize = size * nmemb` bytes.  It aborts
(returns 0) when the temp file is not open or when the OS-level write comes
up short; otherwise it writes the whole buffer, advances the segment by the
full buffer length, and returns the full length.  `fileOpen` models
`m_tempFile && m_tempFile->isOpen()`; `osWrite` models the return value of
`m_tempFile->write(ptr, totalSize)`; the result is
(value returned to curl, updated current segment, bytes handed to the file).
-/
def writeCallback (fileOpen : Bool) (osWrite : Int → Int) (seg : Option Segment)
    (bufLen : Int) : Int × Option Segment × Int :=
  if fileOpen = false then
    (0, seg, 0)
  else
    let written := osWrite bufLen
    if written ≠ bufLen then
      (0, seg, written)
    else
      match seg with
      | some s => (bufLen, some (s.advanceBy bufLen), written)
      | none => (bufLen, none, written)

/-- A fully successful OS write: `QFile::write` returns the requested count. -/
def fullWrite : Int → Int := fun n => n

/-!
## Segment scheduler

`SegmentScheduler` (SegmentScheduler.cpp).  The C++ collections hold raw
pointers into the owning `m_segments` vector; here the collections hold
segment ids and `segments` is the owning store.  Signal emissions that the
claims mention (`segmentCompleted`, `segmentFailed`, `allSegmentsCompleted`)
are returned as an event list.
-/

/-- Events emitted by the scheduler. -/
inductive SchedEvent where
  | segmentCompleted (id : Nat)
  | segmentFailed (id : Nat) (msg : String)
  | allSegmentsCompleted
deriving DecidableEq, Repr

/-- The scheduler's mutable state (fields of `SegmentScheduler`). -/
structure SegmentScheduler where
  segments : List Segment
  pendingQueue : List Nat
  activeSegments : List Nat
  completedSegments : List Nat
  failedSegments : List Nat
  workerAssignments : List (Nat × Nat)
  nextSegmentId : Nat
  paused : Bool
  cancelled : Bool
deriving DecidableEq, Repr

/-- One loop iteration of `SegmentScheduler::initializeSegments`: emit `n`
segments of `segSize` bytes each starting at `cur`, the last one enlarged by
`rem` ("Add remainder bytes to the last segment"). -/
def buildSegs (segSize rem : Int) (cur : Int) (idStart : Nat) : Nat → List Segment
  | 0 => []
  | Nat.succ n =>
      Segment.make idStart cur (cur + (if n = 0 then segSize + rem else segSize) - 1) ::
        buildSegs segSize rem (cur + (if n = 0 then segSize + rem else segSize)) (idStart + 1) n

/-- `std::clamp(segmentCount, MIN_SEGMENTS, MAX_SEGMENTS)`. -/
def clampCount (c : Nat) : Nat := max Constants.MIN_SEGMENTS (min c Constants.MAX_SEGMENTS)

namespace SegmentScheduler

/-- `SegmentScheduler::segment(id)`: look a segment up by id. -/
def getSegment (st : SegmentScheduler) (id : Nat) : Option Segment :=
  st.segments.find? (fun s => s.id = id)

/-- In-place mutation of the segment object with the given id. -/
def updateSegment (st : SegmentScheduler) (id : Nat) (f : Segment → Segment) :
    SegmentScheduler :=
  { st with segments := st.segments.map (fun s => if s.id = id then f s else s) }

/-- `m_workerAssignments[worker] = segment`. -/
def setAssignment (st : SegmentScheduler) (worker segId : Nat) : SegmentScheduler :=
  { st with workerAssignments :=
      (worker, segId) :: st.workerAssignments.filter (fun p => p.1 ≠ worker) }

/-- `SegmentScheduler::initializeSegments` (SegmentScheduler.cpp, lines 36-85):
clears the collections, clamps the count, computes per-segment size and
remainder with C++ truncating division, and builds the contiguous segments,
all of which enter the pending queue. -/
def initializeSegments (totalSize : Int) (count : Nat) : SegmentScheduler :=
  let c := clampCount count
  let segSize := totalSize.tdiv (c : Int)
  let rem := totalSize.tmod (c : Int)
  let segs := buildSegs segSize rem 0 0 c
  { segments := segs, pendingQueue := segs.map Segment.id, activeSegments := [],
    completedSegments := [], failedSegments := [], workerAssignments := [],
    nextSegmentId := c, paused := false, cancelled := false }

/-- One iteration of the scan in `SegmentScheduler::findLargestActiveSegment`:
`if (remaining > maxRemaining && segment->isSplittable()) { ... }`. -/
def findStep (st : SegmentScheduler) (acc : Option Segment × Int) (segId : Nat) :
    Option Segment × Int :=
  match st.getSegment segId with
  | none => acc
  | some s =>
    if s.remainingBytes > acc.2 && s.isSplittable then (some s, s.remainingBytes)
    else acc

/-- `SegmentScheduler::findLargestActiveSegment` (lines 617-632): scan the
active set keeping the splittable segment with strictly greatest remaining
bytes. -/
def findLargestActiveSegment (st : SegmentScheduler) : Option Segment :=
  (st.activeSegments.foldl (findStep st) ((none : Option Segment), (0 : Int))).1

/-- `SegmentScheduler::stealWork` (lines 270-307): find the largest splittable
active segment, allocate a new id, split it, mark the upper half Active and
hand it to the caller. -/
def stealWork (st : SegmentScheduler) (worker : Nat) : Option Segment × SegmentScheduler :=
  if st.paused || st.cancelled then (none, st)
  else
    match st.findLargestActiveSegment with
    | none => (none, st)
    | some largest =>
      if !largest.isSplittable then (none, st)
      else
        let newId := st.nextSegmentId
        let st1 := { st with nextSegmentId := newId + 1 }
        match largest.split newId with
        | none => (none, st1)
        | some (donor, upper) =>
          let upperA := upper.setState SegmentState.Active
          let st2 := st1.updateSegment largest.id (fun _ => donor)
          let st3 := { st2 with
                        segments := st2.segments ++ [upperA],
                        activeSegments := upperA.id :: st2.activeSegments }
          (some upperA, st3.setAssignment worker upperA.id)

/-- `SegmentScheduler::acquireSegment` (lines 202-227): pop the pending head
and activate it, else fall back to work stealing. -/
def acquireSegment (st : SegmentScheduler) (worker : Nat) : Option Segment × SegmentScheduler :=
  if st.paused || st.cancelled then (none, st)
  else
    match st.pendingQueue with
    | [] => st.stealWork worker
    | segId :: rest =>
      let st1 := ({ st with pendingQueue := rest }).updateSegment segId
                   (fun s => s.setState SegmentState.Active)
      let st2 := ({ st1 with activeSegments := segId :: st1.activeSegments
                  }).setAssignment worker segId
      (st2.getSegment segId, st2)

/-- `SegmentScheduler::isAllComplete` (lines 528-531). -/
def isAllComplete (st : SegmentScheduler) : Bool :=
  st.pendingQueue.isEmpty && st.activeSegments.isEmpty && st.failedSegments.isEmpty

/-- `SegmentScheduler::hasFailed`. -/
def hasFailed (st : SegmentScheduler) : Bool := !st.failedSegments.isEmpty

/-- `SegmentScheduler::releaseSegment` (lines 229-268): remove the segment
from the active set and the caller from the assignments, then route by the
segment's state. -/
def releaseSegment (st : SegmentScheduler) (worker : Nat) (segId : Nat) :
    SegmentScheduler × List SchedEvent :=
  match st.getSegment segId with
  | none => (st, [])
  | some seg =>
    let st1 := { st with
      activeSegments := st.activeSegments.filter (fun i => i ≠ segId),
      workerAssignments := st.workerAssignments.filter (fun p => p.1 ≠ worker) }
    match seg.state with
    | SegmentState.Completed =>
        let st2 := { st1 with completedSegments := segId :: st1.completedSegments }
        (st2, SchedEvent.segmentCompleted segId ::
              (if st2.isAllComplete then [SchedEvent.allSegmentsCompleted] else []))
    | SegmentState.Failed =>
        if seg.canRetry then
          (({ st1 with pendingQueue := st1.pendingQueue ++ [segId] }).updateSegment segId
              (fun s => s.setState SegmentState.Pending), [])
        else
          ({ st1 with failedSegments := segId :: st1.failedSegments },
           [SchedEvent.segmentFailed segId seg.lastError])
    | SegmentState.Paused =>
        ({ st1 with pendingQueue := segId :: st1.pendingQueue }, [])
    | _ =>
        (({ st1 with pendingQueue := st1.pendingQueue ++ [segId] }).updateSegment segId
            (fun s => s.setState SegmentState.Pending), [])

/-- `SegmentScheduler::markFailed` (lines 323-342).  Note: no call site of
this function exists in the sources; it is embedded because it is the only
code that increments a segment's retry counter. -/
def markFailed (st : SegmentScheduler) (segId : Nat) (error : String) :
    SegmentScheduler × List SchedEvent :=
  match st.getSegment segId with
  | none => (st, [])
  | some _ =>
    let st1 := st.updateSegment segId (fun s => (s.setLastError error).incrementRetry)
    let st2 := { st1 with activeSegments := st1.activeSegments.filter (fun i => i ≠ segId) }
    match st2.getSegment segId with
    | none => (st2, [])
    | some seg =>
      if seg.canRetry then
        (({ st2 with pendingQueue := st2.pendingQueue ++ [segId] }).updateSegment segId
            (fun s => s.setState SegmentState.Pending), [])
      else
        (({ st2 with failedSegments := segId :: st2.failedSegments }).updateSegment segId
            (fun s => s.setState SegmentState.Failed),
         [SchedEvent.segmentFailed segId error])

/-- `SegmentScheduler::waitForWork` under the assumption that no other thread
changes the scheduler before the timeout expires: `true` immediately when
pending or active work exists, otherwise the wait predicate
`!pending.empty() || cancelled || paused` evaluated at the timeout. -/
def waitForWorkTimedOut (st : SegmentScheduler) : Bool :=
  if !st.pendingQueue.isEmpty || !st.activeSegments.isEmpty then true
  else !st.pendingQueue.isEmpty || st.cancelled || st.paused

/-- `SegmentScheduler::cancelAll` (lines 585-596). -/
def cancelAll (st : SegmentScheduler) : SegmentScheduler :=
  { st with
    cancelled := true, paused := false,
    pendingQueue := [], activeSegments := [], workerAssignments := [] }

/-- `SegmentScheduler::reset` (lines 598-611). -/
def reset (st : SegmentScheduler) : SegmentScheduler :=
  { st with
    segments := [], pendingQueue := [], activeSegments := [],
    completedSegments := [], failedSegments := [], workerAssignments := [],
    nextSegmentId := 0, paused := false, cancelled := false }

end SegmentScheduler

/-- A freshly constructed scheduler: every collection empty, flags clear. -/
def freshScheduler : SegmentScheduler :=
  { segments := [], pendingQueue := [], activeSegments := [], completedSegments := [],
    failedSegments := [], workerAssignments := [], nextSegmentId := 0,
    paused := false, cancelled := false }

/-!
## Segment worker main loop and failure path
-/

/-- Outcome of one iteration of `SegmentWorker::run` (lines 55-109) up to the
point where the worker either exits, loops, or starts downloading. -/
inductive WorkerStep where
  | exitLoop
  | continueLoop
  | download (segId : Nat)
deriving DecidableEq, Repr

/-- One idle iteration of `SegmentWorker::run` (lines 62-74): acquire a
segment; when none is available wait for work for one second; on timeout
exit if the scheduler reports all work complete. -/
def workerLoopDecision (st : SegmentScheduler) (worker : Nat) : WorkerStep :=
  match st.acquireSegment worker with
  | (some seg, _) => WorkerStep.download seg.id
  | (none, st1) =>
    if st1.waitForWorkTimedOut then WorkerStep.continueLoop
    else if st1.isAllComplete then WorkerStep.exitLoop
    else WorkerStep.continueLoop

/-- The worker's segment-failure path: `SegmentWorker::downloadSegment` on a
real error does `segment->setLastError(...); segment->setState(Failed)` —
with no retry-counter update — and `run` then calls
`m_scheduler->releaseSegment(this, segment)`. -/
def workerFailRelease (st : SegmentScheduler) (worker : Nat) (segId : Nat) (msg : String) :
    SegmentScheduler × List SchedEvent :=
  let st1 := st.updateSegment segId
               (fun s => (s.setLastError msg).setState SegmentState.Failed)
  st1.releaseSegment worker segId

/-- `n` consecutive rounds of: acquire a segment, have its download fail,
release it — the loop a worker executes when every transfer attempt errors. -/
def failNTimes (worker : Nat) (msg : String) : Nat → SegmentScheduler →
    SegmentScheduler × List SchedEvent
  | 0, st => (st, [])
  | Nat.succ n, st =>
    match st.acquireSegment worker with
    | (none, st1) => (st1, [])
    | (some seg, st1) =>
      let p := workerFailRelease st1 worker seg.id msg
      let q := failNTimes worker msg n p.1
      (q.1, p.2 ++ q.2)

/-- The Active segments as objects (the pointers held by `m_activeSegments`,
resolved through the owning store). -/
def activeSegs (st : SegmentScheduler) : List Segment :=
  st.activeSegments.filterMap st.getSegment

/-- What a successful `steal_work` call is specified to deliver: among the
Active segments, a splittable donor `L` of greatest remaining bytes was
selected; the caller received the upper half `[midpoint, original_end]` as a
new Active segment under a freshly allocated id while the donor's end shrank
to `midpoint − 1`, with `midpoint = current_byte + remaining/2`. -/
def StealSuccessSpec (st : SegmentScheduler) (w : Nat) (u : Segment)
    (st' : SegmentScheduler) : Prop :=
  ∃ L ∈ activeSegs st,
    L.isSplittable = true ∧
    (∀ s ∈ activeSegs st, s.isSplittable = true → s.remainingBytes ≤ L.remainingBytes) ∧
    u.id = st.nextSegmentId ∧
    u.state = SegmentState.Active ∧
    u.startByte = L.currentByte + L.remainingBytes / 2 ∧
    u.currentByte = u.startByte ∧
    u.endByte = L.endByte ∧
    st'.getSegment L.id = some { L with endByte := u.startByte - 1 } ∧
    u ∈ st'.segments ∧
    st'.activeSegments = u.id :: st.activeSegments ∧
    (w, u.id) ∈ st'.workerAssignments ∧
    st'.nextSegmentId = st.nextSegmentId + 1

/-!
## Partition of the byte range

`[0, totalSize)` is covered by the segments exactly when some arrangement of
them forms a contiguous chain of ranges starting at byte 0 and ending at byte
`totalSize - 1` (equivalently: next byte `totalSize`).
-/

/-- Does the list form a contiguous chain of ranges starting at `cur`? -/
def chainFrom (cur : Int) : List Segment → Bool
  | [] => true
  | s :: rest => (s.startByte == cur) && chainFrom (s.endByte + 1) rest

/-- The byte following the last range of the chain (`cur` for the empty
chain). -/
def chainEnd (cur : Int) : List Segment → Int
  | [] => cur
  | s :: rest => chainEnd (s.endByte + 1) rest

/-- `Σ (end − start + 1)` over the segments. -/
def sizesSum (l : List Segment) : Int := (l.map Segment.totalSize).sum

/-- The segments partition `[0, total)` contiguously with no gaps or
overlaps: some arrangement of them chains from byte 0 to byte `total - 1`. -/
def Partitions (segs : List Segment) (total : Int) : Prop :=
  ∃ l, List.Perm l segs ∧ chainFrom 0 l = true ∧ chainEnd 0 l = total

/-- One split as the scheduler performs it (`stealWork` / `rebalanceSegments`):
the donor is replaced in place by its shrunken half and the new upper half is
appended to the segment store. -/
def SplitStep (segs segs' : List Segment) : Prop :=
  ∃ (l₁ l₂ : List Segment) (s : Segment) (nid : Nat) (d u : Segment),
    segs = l₁ ++ s :: l₂ ∧ Segment.split s nid = some (d, u) ∧
    segs' = l₁ ++ d :: l₂ ++ [u]

/-- `SegmentScheduler::calculateOptimalSegmentCount` (SegmentScheduler.cpp,
lines 136-148). -/
def calculateOptimalSegmentCount (totalSize : Int) : Nat :=
  if totalSize ≤ 0 then Constants.MIN_SEGMENTS
  else clampCount (totalSize.tdiv Constants.MIN_SEGMENT_SIZE).toNat

/-- `DownloadTask::initializeSegments` (DownloadTask.cpp, lines 396-410):
the segment count the task requests — a single segment when ranges are
unsupported or the size is unknown/zero. -/
def taskSegmentCount (supportsRanges : Bool) (fileSize : Int) : Nat :=
  if supportsRanges = false ∨ fileSize ≤ 0 then 1
  else calculateOptimalSegmentCount fileSize

/-!
## Curl error classification

`SegmentWorker::handleCurlError` (SegmentWorker.cpp, lines 343-385) and
`DownloadError::isRecoverable` (Types.h, lines 196-203).
-/

/-- The curl result codes distinguished by the worker's switch, plus a
catch-all for every other code (the `default:` branch). -/
inductive CurlCode where
  | couldntResolveHost
  | couldntConnect
  | operationTimedOut
  | recvFailure
  | sendFailure
  | sslConnectFailure
  | sslCertProblem
  | sslCipher
  | peerFailedVerification
  | httpReturnedError
  | otherCode (n : Int)
deriving DecidableEq, Repr

/-- The numeric CURLcode values (curl.h) for the constructors above. -/
def curlCodeNum : CurlCode → Int
  | CurlCode.couldntResolveHost => 6
  | CurlCode.couldntConnect => 7
  | CurlCode.operationTimedOut => 28
  | CurlCode.recvFailure => 56
  | CurlCode.sendFailure => 55
  | CurlCode.sslConnectFailure => 35
  | CurlCode.sslCertProblem => 58
  | CurlCode.sslCipher => 59
  | CurlCode.peerFailedVerification => 60
  | CurlCode.httpReturnedError => 22
  | CurlCode.otherCode n => n

/-- The fields of `DownloadError` the classification sets (message/details
strings carry no claim content and are omitted). -/
structure DownloadErrorRec where
  category : ErrorCategory
  errorCode : Int
  retryCount : Nat
deriving DecidableEq, Repr

/-- `DownloadError::isRecoverable` (Types.h). -/
def DownloadErrorRec.isRecoverable (e : DownloadErrorRec) : Bool :=
  e.category = ErrorCategory.Network || e.category = ErrorCategory.Timeout ||
    e.category = ErrorCategory.ServerError

/-- `SegmentWorker::handleCurlError`: `httpResponseCode` models the value
`curl_easy_getinfo(CURLINFO_RESPONSE_CODE)` yields in the
`CURLE_HTTP_RETURNED_ERROR` branch; `retry` models
`segment->retryCount()`. -/
def handleCurlError (code : CurlCode) (httpResponseCode : Int) (retry : Nat) :
    DownloadErrorRec :=
  let base : DownloadErrorRec :=
    { category := ErrorCategory.Unknown, errorCode := curlCodeNum code, retryCount := retry }
  match code with
  | CurlCode.couldntResolveHost | CurlCode.couldntConnect | CurlCode.operationTimedOut
  | CurlCode.recvFailure | CurlCode.sendFailure =>
      { base with category := ErrorCategory.Network }
  | CurlCode.sslConnectFailure | CurlCode.sslCertProblem | CurlCode.sslCipher
  | CurlCode.peerFailedVerification =>
      { base with category := ErrorCategory.SSLError }
  | CurlCode.httpReturnedError =>
      { base with category := ErrorCategory.ServerError, errorCode := httpResponseCode }
  | CurlCode.otherCode _ =>
      { base with category := ErrorCategory.Unknown }

/-- The probe's HTTP-status classification (NetworkProbe.cpp, line 144),
reached when `httpCode >= 400`:
`(httpCode >= 500) ? ServerError : ClientError`. -/
def probeHttpErrorCategory (httpCode : Int) : ErrorCategory :=
  if httpCode ≥ 500 then ErrorCategory.ServerError else ErrorCategory.ClientError

/-!
## Download manager: session statistics and duplicate URLs

`DownloadManager::onSpeedUpdateTimer` (DownloadManager.cpp, lines 568-588),
`sessionBytesDownloaded` (lines 426-428), `addDownload` (lines 113-158) and
`findByUrl` (lines 298-308).
-/

/-- The per-task fields the statistics loop reads. -/
structure TaskRec where
  state : DownloadState
  downloadedSize : Int
deriving DecidableEq, Repr

/-- The session-bytes accumulation of `onSpeedUpdateTimer`: for every task in
the map — with no state filter — `sessionBytes += task->downloadedSize()`.
(The `isActive()` test in the same loop gates only the speed sum.) -/
def onSpeedUpdateSessionBytes (tasks : List TaskRec) : Int :=
  tasks.foldl (fun acc t => acc + t.downloadedSize) 0

/-- `DownloadManager::sessionBytesDownloaded`: the value stored by the last
timer tick. -/
def sessionBytesDownloaded (tasks : List TaskRec) : Int :=
  onSpeedUpdateSessionBytes tasks

/-- Definition following the spec's words (§9): "session bytes" as the sum of
bytes actually transferred since process start, one ghost counter per task. -/
def actualSessionBytes (transfers : List Int) : Int :=
  transfers.foldl (fun a b => a + b) 0

/-- `QUrl` as far as the manager consults it: its textual value and
`isValid()`. -/
structure UrlQ where
  text : String
  valid : Bool
deriving DecidableEq, Repr

/-- One entry of the manager's task map (`m_tasks`), in map order. -/
structure TaskEntry where
  id : Nat
  url : UrlQ
  state : DownloadState
deriving DecidableEq, Repr

/-- `DownloadManager::findByUrl`: scan the map for a task whose `urlObject()`
equals the url (exact `QUrl` equality, no state filter). -/
def findByUrl (tasks : List TaskEntry) (url : UrlQ) : Option Nat :=
  (tasks.find? (fun t => t.url = url)).map TaskEntry.id

/-- `DownloadManager::addDownload`: reject an invalid url (null id), return
the existing id on a duplicate, otherwise create and store a fresh task. -/
def addDownload (tasks : List TaskEntry) (freshId : Nat) (url : UrlQ) :
    Option Nat × List TaskEntry :=
  if !url.valid then (none, tasks)
  else
    match findByUrl tasks url with
    | some id => (some id, tasks)
    | none =>
        (some freshId,
         tasks ++ [{ id := freshId, url := url, state := DownloadState.Queued }])

/-!
## Merge

`DownloadTask::mergeSegments` (DownloadTask.cpp, lines 461-516) and the
failure reaction in `DownloadTask::onAllSegmentsCompleted` (lines 332-347).
A temp file is modelled by the sequence of values its successive
`read(buffer, BUFFER_SIZE)` calls return (`atEnd` once the list is
exhausted; a value ≤ 0 is a failed read).  The output device is modelled by
an optional byte capacity: `write` returns only what still fits, so a full
disk produces a short write.
-/

/-- What `outputFile.write(buffer, n)` returns with `used` bytes already
written. -/
def writeToOutput (cap : Option Int) (used n : Int) : Int :=
  match cap with
  | none => n
  | some c => min n (c - used)

/-- The inner copy loop for one temp file: `while (!tempFile.atEnd())` read;
`if (read <= 0) break;` write; `if (written != read)` abort the whole merge
(`false`); otherwise the loop ends with this file copied (`true`). -/
def copyTempFile (cap : Option Int) : Int → List Int → Bool × Int
  | used, [] => (true, used)
  | used, r :: rest =>
      if r ≤ 0 then (true, used)
      else
        if writeToOutput cap used r ≠ r then (false, used)
        else copyTempFile cap (used + r) rest

/-- The outer merge loop over the sorted temp files: a file that fails to
open (`none`) or a short write aborts; otherwise the files are copied in
order. -/
def mergeFiles (cap : Option Int) : Int → List (Option (List Int)) → Bool × Int
  | used, [] => (true, used)
  | used, none :: _ => (false, used)
  | used, some f :: rest =>
      match copyTempFile cap used f with
      | (true, used') => mergeFiles cap used' rest
      | (false, used') => (false, used')

/-- `DownloadTask::mergeSegments` over the ordered file list: on success the
final file (with its byte count) survives; on failure
`QFile::remove(m_filePath)` deletes it. -/
def mergeSegments (cap : Option Int) (files : List (Option (List Int))) :
    Bool × Option Int :=
  match mergeFiles cap 0 files with
  | (true, used) => (true, some used)
  | (false, _) => (false, none)

/-- The sorting relation of the merge's `std::sort` call (nondecreasing
`startByte`). -/
def startLE (a b : Segment) : Prop := a.startByte ≤ b.startByte

instance : DecidableRel startLE := fun a b => Int.decLe a.startByte b.startByte

instance : IsTotal Segment startLE := ⟨fun a b => Int.le_total a.startByte b.startByte⟩

instance : IsTrans Segment startLE := ⟨fun _ _ _ hab hbc => le_trans hab hbc⟩

/-- The segment ordering the merge establishes before copying. -/
def sortByStart (segs : List Segment) : List Segment := List.insertionSort startLE segs

/-- The merge over a task's segments: temp files are visited in ascending
`startByte` order. -/
def mergeTask (cap : Option Int) (segs : List Segment)
    (fileOf : Nat → Option (List Int)) : Bool × Option Int :=
  mergeSegments cap ((sortByStart segs).map (fun s => fileOf s.id))

/-- `DownloadTask::onAllSegmentsCompleted` after the merge: a failed merge
sets a FileSystem-category error and moves the task to Failed; a successful
one proceeds to Verifying. -/
def taskAfterMergeOutcome (success : Bool) : DownloadState × ErrorCategory :=
  if success then (DownloadState.Verifying, ErrorCategory.NoError)
  else (DownloadState.Failed, ErrorCategory.FileSystem)

/-- Sum of a temp file's read values. -/
def sumReads (l : List Int) : Int := l.foldr (fun a b => a + b) 0

/-- Total bytes the temp files offer to the merge. -/
def readsTotal : List (Option (List Int)) → Int
  | [] => 0
  | none :: rest => readsTotal rest
  | some f :: rest => sumReads f + readsTotal rest

/-!
## Concrete scenario inputs
-/

/-- An error message used in failure scenarios. -/
def errMsg : String := "connection reset"

/-- A 4 MiB active segment, 1 MiB already downloaded (claim C1 scenario). -/
def segC1 : Segment :=
  { id := 3, startByte := 0, endByte := 4194303, currentByte := 1048576,
    state := SegmentState.Active, retryCount := 0, lastError := noMsg }

/-- The donor produced by splitting `segC1`: its end shrank to `2621439`. -/
def donorC1 : Segment := { segC1 with endByte := 2621439 }

/-- The donor a little later, 40 bytes short of its shrunken end. -/
def donorC1mid : Segment := { donorC1 with currentByte := 2621400 }

/-- A donor segment whose end was shrunk to `1048575` by a split, currently
6 bytes short of the end (claim C2 scenario). -/
def segC2 : Segment :=
  { id := 0, startByte := 0, endByte := 1048575, currentByte := 1048570,
    state := SegmentState.Active, retryCount := 0, lastError := noMsg }

/-- A scheduler for a 10 MiB download in a single segment. -/
def schedC4 : SegmentScheduler := SegmentScheduler.initializeSegments 10485760 1

/-- Acquire-then-`markFailed` rounds: the scheduler-side failure routine that
does increment the retry counter (no caller of `markFailed` exists in the
sources; this loop shows what it would do). -/
def acquireMarkFailNTimes (worker : Nat) (msg : String) : Nat → SegmentScheduler →
    SegmentScheduler × List SchedEvent
  | 0, st => (st, [])
  | Nat.succ n, st =>
    match st.acquireSegment worker with
    | (none, st1) => (st1, [])
    | (some seg, st1) =>
      let p := st1.markFailed seg.id msg
      let q := acquireMarkFailNTimes worker msg n p.1
      (q.1, p.2 ++ q.2)

/-- A completed task loaded from the store: 1000 bytes on its counter, none
transferred this session. -/
def loadedCompleted : TaskRec := { state := DownloadState.Completed, downloadedSize := 1000 }

/-- A task actively downloading this session. -/
def activeTask : TaskRec := { state := DownloadState.Downloading, downloadedSize := 500 }

/-- The URL of the duplicate-add scenario. -/
def urlAText : String := "https://example.com/file.bin"

/-- A valid URL already registered. -/
def urlA : UrlQ := { text := urlAText, valid := true }

/-- The already-registered task holding `urlA`, in Completed state. -/
def entryA : TaskEntry := { id := 10, url := urlA, state := DownloadState.Completed }

/-- A 4 MiB download split into two 2 MiB segments. -/
def splitDemoBefore : List Segment := (SegmentScheduler.initializeSegments 4194304 2).segments

/-- The donor half after splitting the first demo segment (id 0) at its
midpoint 1048576. -/
def dDemo : Segment := { Segment.make 0 0 2097151 with endByte := 1048575 }

/-- The stolen upper half `[1048576, 2097151]` with fresh id 5. -/
def uDemo : Segment := Segment.make 5 1048576 2097151

/-- The demo segment store after the split: donor replaced in place, upper
half appended. -/
def splitDemoAfter : List Segment :=
  [dDemo, Segment.make 1 2097152 4194303, uDemo]

/-- A 3 MiB Active segment, nothing downloaded yet (the steal donor). -/
def aC5 : Segment :=
  { id := 0, startByte := 0, endByte := 3145727, currentByte := 0,
    state := SegmentState.Active, retryCount := 0, lastError := noMsg }

/-- A 1 MiB Active segment, just splittable but smaller than `aC5`. -/
def bC5 : Segment :=
  { id := 1, startByte := 3145728, endByte := 4194303, currentByte := 3145728,
    state := SegmentState.Active, retryCount := 0, lastError := noMsg }

/-- A scheduler with two active segments held by workers 5 and 6; worker 1
will come stealing. -/
def stC5 : SegmentScheduler :=
  { segments := [aC5, bC5], pendingQueue := [], activeSegments := [0, 1],
    completedSegments := [], failedSegments := [], workerAssignments := [(5, 0), (6, 1)],
    nextSegmentId := 2, paused := false, cancelled := false }

/-- The upper half worker 1 receives: `[1572864, 3145727]`, fresh id 2. -/
def uC5 : Segment :=
  { id := 2, startByte := 1572864, endByte := 3145727, currentByte := 1572864,
    state := SegmentState.Active, retryCount := 0, lastError := noMsg }

/-- The donor after the steal: its end shrank to 1572863. -/
def donorAC5 : Segment := { aC5 with endByte := 1572863 }

/-- The scheduler after worker 1's successful steal. -/
def stC5' : SegmentScheduler :=
  { segments := [donorAC5, bC5, uC5], pendingQueue := [], activeSegments := [2, 0, 1],
    completedSegments := [], failedSegments := [],
    workerAssignments := [(1, 2), (5, 0), (6, 1)],
    nextSegmentId := 3, paused := false, cancelled := false }

/-- A 1000-byte Active segment: far below `2 × MIN_STEAL_SIZE`. -/
def noStealSeg : Segment :=
  { id := 0, startByte := 0, endByte := 999, currentByte := 0,
    state := SegmentState.Active, retryCount := 0, lastError := noMsg }

/-- A scheduler whose only Active segment is too small to split. -/
def stNoSteal : SegmentScheduler :=
  { segments := [noStealSeg], pendingQueue := [], activeSegments := [0],
    completedSegments := [], failedSegments := [], workerAssignments := [(5, 0)],
    nextSegmentId := 1, paused := false, cancelled := false }

/-- First merge-demo temp file (segment `[0,199]`, 200 bytes expected): one
good 100-byte read, then a failed read losing the rest. -/
def tempA : List Int := [100, -1]

/-- Second merge-demo temp file (segment `[200,249]`): one 50-byte read. -/
def tempB : List Int := [50]

/-- Two segments listed out of order, to be sorted by the merge. -/
def mergeOrderDemo : List Segment := [Segment.make 1 100 199, Segment.make 0 0 99]

/-!
## Claim theorems
-/

/-- C1: the spec demands that the data-receive callback re-read the segment's
`end` and, when the incoming buffer would overrun it, write only the prefix
up to `end + 1` and return fewer bytes than offered.  The code's
`SegmentWorker::writeCallback` does no such check: evaluated on a donor
segment whose end was shrunk by a split (from `segC1`, end now `2621439`)
with `current_byte = 2621400` and a 16384-byte buffer, it hands all 16384
bytes to the temp file and returns the full 16384 (instead of 40), pushing
`current_byte` 16344 bytes past `end + 1`. -/
theorem writeCallback_no_end_truncation :
    Segment.split segC1 7 = some (donorC1, Segment.make 7 2621440 4194303) ∧
    writeCallback true fullWrite (some donorC1mid) 16384 =
      (16384, some { donorC1mid with currentByte := 2637784 }, 16384) ∧
    donorC1mid.endByte + 1 = 2621440 ∧
    (2637784 : Int) > donorC1mid.endByte + 1 := by
  decide

/-- C2: the invariant `start ≤ current_byte ≤ end + 1` is not preserved by the
write callback's advance once the scheduler has shrunk the segment's end
during a split: `segC2` satisfies the invariant (`current = 1048570`,
`end = 1048575`), yet one 16384-byte buffer advances it to `1064954`,
violating `current_byte ≤ end + 1`. -/
theorem writeCallback_breaks_progress_invariant :
    Segment.invariantHolds segC2 = true ∧
    writeCallback true fullWrite (some segC2) 16384 =
      (16384, some { segC2 with currentByte := 1064954 }, 16384) ∧
    Segment.invariantHolds { segC2 with currentByte := 1064954 } = false := by
  decide

/-- C4: the live failure path (worker sets the segment Failed and calls
`releaseSegment`) never increments `retry_count`, so a segment whose download
always errors is re-queued on every one of 6 consecutive failures — after
them its retry count is still 0, the failed set is empty and no
`segmentFailed` event was emitted, although `MAX_RETRIES = 5`.  By contrast
the scheduler's own (uncalled) `markFailed` routine does increment the
counter and declares the segment terminally failed on the fifth failure. -/
theorem release_path_never_exhausts_retries :
    (failNTimes 1 errMsg 6 schedC4).2 = [] ∧
    (failNTimes 1 errMsg 6 schedC4).1.failedSegments = [] ∧
    (failNTimes 1 errMsg 6 schedC4).1.pendingQueue = [0] ∧
    SegmentScheduler.getSegment (failNTimes 1 errMsg 6 schedC4).1 0 =
      some { id := 0, startByte := 0, endByte := 10485759, currentByte := 0,
             state := SegmentState.Pending, retryCount := 0, lastError := errMsg } ∧
    Constants.MAX_RETRIES = 5 ∧
    (acquireMarkFailNTimes 1 errMsg 5 schedC4).2 = [SchedEvent.segmentFailed 0 errMsg] ∧
    (acquireMarkFailNTimes 1 errMsg 5 schedC4).1.failedSegments = [0] := by
  decide

/-- Shifting the accumulator out of the session-bytes fold. -/
theorem sessionFold_shift (l : List TaskRec) (init : Int) :
    l.foldl (fun acc t => acc + t.downloadedSize) init =
      init + l.foldl (fun acc t => acc + t.downloadedSize) 0 := by
  induction l generalizing init with
  | nil => simp
  | cons t ts ih =>
      simp only [List.foldl_cons]
      rw [ih (init + t.downloadedSize), ih (0 + t.downloadedSize)]
      omega

/-- Shifting the accumulator out of the plain integer fold. -/
theorem addFold_shift (l : List Int) (init : Int) :
    l.foldl (fun a b => a + b) init = init + l.foldl (fun a b => a + b) 0 := by
  induction l generalizing init with
  | nil => simp
  | cons x xs ih =>
      simp only [List.foldl_cons]
      rw [ih (init + x), ih (0 + x)]
      omega

/-- Pointwise dominated ghost transfers sum to no more than the stored
counters. -/
theorem pairSum_le (l : List (TaskRec × Int))
    (hle : ∀ p ∈ l, p.2 ≤ p.1.downloadedSize) :
    actualSessionBytes (l.map Prod.snd) ≤ onSpeedUpdateSessionBytes (l.map Prod.fst) := by
  induction l with
  | nil => simp [actualSessionBytes, onSpeedUpdateSessionBytes]
  | cons p ps ih =>
      have hp := hle p (List.mem_cons_self p ps)
      have hps : ∀ q ∈ ps, q.2 ≤ q.1.downloadedSize := fun q hq =>
        hle q (List.mem_cons_of_mem p hq)
      have := ih hps
      simp only [actualSessionBytes, onSpeedUpdateSessionBytes, List.map_cons,
        List.foldl_cons] at *
      rw [addFold_shift, sessionFold_shift]
      omega

/-- Strict version: one strictly dominated entry makes the sums strict. -/
theorem pairSum_lt (l : List (TaskRec × Int))
    (hle : ∀ p ∈ l, p.2 ≤ p.1.downloadedSize)
    (hex : ∃ p ∈ l, p.2 < p.1.downloadedSize) :
    actualSessionBytes (l.map Prod.snd) < onSpeedUpdateSessionBytes (l.map Prod.fst) := by
  induction l with
  | nil => obtain ⟨p, hp, _⟩ := hex; cases hp
  | cons p ps ih =>
      have hp := hle p (List.mem_cons_self p ps)
      have hps : ∀ q ∈ ps, q.2 ≤ q.1.downloadedSize := fun q hq =>
        hle q (List.mem_cons_of_mem p hq)
      have hrest := pairSum_le ps hps
      simp only [actualSessionBytes, onSpeedUpdateSessionBytes, List.map_cons,
        List.foldl_cons] at *
      rw [addFold_shift, sessionFold_shift]
      obtain ⟨q, hq, hqlt⟩ := hex
      rcases List.mem_cons.mp hq with hq | hq
      · subst hq; omega
      · have := ih hps ⟨q, hq, hqlt⟩
        simp only [actualSessionBytes, onSpeedUpdateSessionBytes] at this
        omega

/-- C6 counterexample: on a segment GET failing with HTTP status 404 the
worker's classifier yields the recoverable `ServerError` category, not the
non-recoverable `ClientError` the claim requires for 4xx; status 408 is not
remapped to `Network` either. -/
theorem segment_get_4xx_counterexample :
    (handleCurlError CurlCode.httpReturnedError 404 0).category = ErrorCategory.ServerError ∧
    ¬ (handleCurlError CurlCode.httpReturnedError 404 0).category = ErrorCategory.ClientError ∧
    (handleCurlError CurlCode.httpReturnedError 404 0).isRecoverable = true ∧
    ¬ (handleCurlError CurlCode.httpReturnedError 408 2).category = ErrorCategory.Network := by
  decide

/-- C6 amended: when a segment GET fails with an HTTP error status, the
worker assigns the recoverable `ServerError` category regardless of the
status — 4xx included, with no 408/429 exception anywhere (the probe, not
the worker, distinguishes 4xx → ClientError from 5xx → ServerError, and it
too treats 408 and 429 as plain ClientError). -/
theorem segment_get_http_error_always_server_error :
    (∀ (status : Int) (r : Nat), 400 ≤ status →
      handleCurlError CurlCode.httpReturnedError status r =
        { category := ErrorCategory.ServerError, errorCode := status, retryCount := r } ∧
      (handleCurlError CurlCode.httpReturnedError status r).isRecoverable = true) ∧
    probeHttpErrorCategory 404 = ErrorCategory.ClientError ∧
    probeHttpErrorCategory 408 = ErrorCategory.ClientError ∧
    probeHttpErrorCategory 429 = ErrorCategory.ClientError ∧
    probeHttpErrorCategory 503 = ErrorCategory.ServerError := by
  refine ⟨?_, by decide, by decide, by decide, by decide⟩
  intro s r _
  exact ⟨rfl, rfl⟩

/-- Witness for C6's amended statement at status 404. -/
theorem segment_get_http_error_witness :
    handleCurlError CurlCode.httpReturnedError 404 1 =
      { category := ErrorCategory.ServerError, errorCode := 404, retryCount := 1 } ∧
    (handleCurlError CurlCode.httpReturnedError 404 1).isRecoverable = true :=
  segment_get_http_error_always_server_error.1 404 1 (by decide)

/-- C8: the manager's session-bytes statistic adds `task.downloadedSize`
for every task in the map — a Completed task contributes its full counter —
so whenever each task's bytes-transferred-this-session is bounded by its
stored counter and at least one (e.g. a previously completed task loaded at
startup) has transferred strictly less than its counter shows, the reported
session bytes strictly exceed the bytes actually transferred since process
start. -/
theorem session_bytes_overcount :
    (∀ (t : TaskRec) (tasks : List TaskRec),
      sessionBytesDownloaded (t :: tasks) =
        t.downloadedSize + sessionBytesDownloaded tasks) ∧
    (∀ l : List (TaskRec × Int),
      (∀ p ∈ l, p.2 ≤ p.1.downloadedSize) →
      (∃ p ∈ l, p.1.state = DownloadState.Completed ∧ p.2 < p.1.downloadedSize) →
      actualSessionBytes (l.map Prod.snd) < sessionBytesDownloaded (l.map Prod.fst)) := by
  constructor
  · intro t tasks
    simp only [sessionBytesDownloaded, onSpeedUpdateSessionBytes, List.foldl_cons]
    rw [sessionFold_shift]
    omega
  · intro l hle hex
    obtain ⟨p, hp, _, hlt⟩ := hex
    exact pairSum_lt l hle ⟨p, hp, hlt⟩

/-- Witness for C8: with the loaded completed task (1000 bytes, 0 this
session) and an active one (500, all this session), the statistic counts
1500 while only 500 were transferred. -/
theorem session_bytes_overcount_witness :
    sessionBytesDownloaded (loadedCompleted :: [activeTask]) =
      loadedCompleted.downloadedSize + sessionBytesDownloaded [activeTask] ∧
    actualSessionBytes ([(loadedCompleted, 0), (activeTask, 500)].map Prod.snd) <
      sessionBytesDownloaded ([(loadedCompleted, 0), (activeTask, 500)].map Prod.fst) :=
  ⟨session_bytes_overcount.1 loadedCompleted [activeTask],
   session_bytes_overcount.2 [(loadedCompleted, 0), (activeTask, 500)]
     (by decide) ⟨(loadedCompleted, 0), by decide, by decide, by decide⟩⟩

/-- C9: adding a download whose URL exactly equals that of a task already in
the map — whatever that task's state — creates no task and leaves the map
unchanged; `addDownload` returns the existing task's id. -/
theorem addDownload_duplicate_returns_existing :
    ∀ (tasks : List TaskEntry) (freshId : Nat) (url : UrlQ),
      url.valid = true → (∃ t ∈ tasks, t.url = url) →
      ∃ t ∈ tasks, t.url = url ∧ addDownload tasks freshId url = (some t.id, tasks) := by
  intro tasks freshId url hv hex
  obtain ⟨t0, ht0, hurl⟩ := hex
  have hsome : (tasks.find? (fun t => t.url = url)).isSome := by
    rw [List.find?_isSome]
    exact ⟨t0, ht0, by simp [hurl]⟩
  obtain ⟨e, he⟩ := Option.isSome_iff_exists.mp hsome
  refine ⟨e, List.mem_of_find?_eq_some he, ?_, ?_⟩
  · have := List.find?_some he
    simpa using this
  · simp [addDownload, hv, findByUrl, he]

/-- Witness for C9: adding `urlA` again (fresh id 99 available) returns the
existing id 10 and the map is untouched, though the task is Completed. -/
theorem addDownload_duplicate_witness :
    ∃ t ∈ [entryA], t.url = urlA ∧ addDownload [entryA] 99 urlA = (some t.id, [entryA]) :=
  addDownload_duplicate_returns_existing [entryA] 99 urlA (by decide)
    ⟨entryA, by decide, by decide⟩

/-- C10: `isAllComplete` only tests that the pending queue, active set and
failed set are empty, so a scheduler holding no segments at all reports
completion; a worker iteration on a freshly constructed (or reset) scheduler
acquires nothing, times out waiting for work, sees `isAllComplete` and exits
its loop; `cancelAll` clears pending and active, so afterwards completion is
reported whenever the failed set was empty. -/
theorem empty_scheduler_reports_complete :
    (∀ st : SegmentScheduler, st.pendingQueue = [] → st.activeSegments = [] →
      st.failedSegments = [] → st.isAllComplete = true) ∧
    (∀ w : Nat, workerLoopDecision freshScheduler w = WorkerStep.exitLoop) ∧
    (∀ (st : SegmentScheduler) (w : Nat),
      workerLoopDecision st.reset w = WorkerStep.exitLoop) ∧
    (∀ st : SegmentScheduler, st.failedSegments = [] →
      st.cancelAll.isAllComplete = true) := by
  refine ⟨?_, ?_, ?_, ?_⟩
  · intro st h1 h2 h3
    simp [SegmentScheduler.isAllComplete, h1, h2, h3]
  · intro w
    rfl
  · intro st w
    rfl
  · intro st h
    simp [SegmentScheduler.cancelAll, SegmentScheduler.isAllComplete, h]

/-- Witness for C10 at concrete inputs: the fresh scheduler and the scheduler
obtained by cancelling `schedC4` (whose failed set is empty). -/
theorem empty_scheduler_reports_complete_witness :
    freshScheduler.isAllComplete = true ∧
    workerLoopDecision freshScheduler 2 = WorkerStep.exitLoop ∧
    workerLoopDecision schedC4.reset 2 = WorkerStep.exitLoop ∧
    schedC4.cancelAll.isAllComplete = true :=
  ⟨empty_scheduler_reports_complete.1 freshScheduler rfl rfl rfl,
   empty_scheduler_reports_complete.2.1 2,
   empty_scheduler_reports_complete.2.2.1 schedC4 2,
   empty_scheduler_reports_complete.2.2.2 schedC4 (by decide)⟩

/-- Chain checking distributes over append. -/
theorem chainFrom_append (c : Int) (xs ys : List Segment) :
    chainFrom c (xs ++ ys) = (chainFrom c xs && chainFrom (chainEnd c xs) ys) := by
  induction xs generalizing c with
  | nil => simp [chainFrom, chainEnd]
  | cons s rest ih => simp [chainFrom, chainEnd, ih, Bool.and_assoc]

/-- Chain-end computation distributes over append. -/
theorem chainEnd_append (c : Int) (xs ys : List Segment) :
    chainEnd c (xs ++ ys) = chainEnd (chainEnd c xs) ys := by
  induction xs generalizing c with
  | nil => simp [chainEnd]
  | cons s rest ih => simp [chainEnd, ih]

/-- A chained list's sizes sum to its covered length. -/
theorem chain_sizesSum (l : List Segment) : ∀ c : Int, chainFrom c l = true →
    sizesSum l = chainEnd c l - c := by
  induction l with
  | nil => intro c _; simp [sizesSum, chainEnd]
  | cons s rest ih =>
      intro c h
      simp only [chainFrom, Bool.and_eq_true, beq_iff_eq] at h
      have hrest := ih (s.endByte + 1) h.2
      simp only [sizesSum, List.map_cons, List.sum_cons, chainEnd] at *
      rw [hrest]
      unfold Segment.totalSize
      omega

/-- A partition's sizes sum to the total. -/
theorem partitions_sizesSum (segs : List Segment) (total : Int)
    (hp : Partitions segs total) : sizesSum segs = total := by
  obtain ⟨l, hperm, hchain, hend⟩ := hp
  have hsum : sizesSum l = sizesSum segs := (hperm.map Segment.totalSize).sum_eq
  have := chain_sizesSum l 0 hchain
  omega

/-- The initialization loop emits a contiguous chain. -/
theorem buildSegs_chain (ss r : Int) : ∀ (n : Nat) (cur : Int) (idStart : Nat),
    chainFrom cur (buildSegs ss r cur idStart n) = true := by
  intro n
  induction n with
  | zero => intro cur idStart; rfl
  | succ n ih =>
      intro cur idStart
      have e : cur + (if n = 0 then ss + r else ss) - 1 + 1 =
          cur + (if n = 0 then ss + r else ss) := by ring
      simp only [buildSegs, chainFrom, Segment.make, beq_self_eq_true, Bool.true_and]
      rw [e]
      exact ih _ _

/-- Unfolding `chainEnd` on the empty list. -/
theorem chainEnd_nil (c : Int) : chainEnd c [] = c := rfl

/-- Unfolding `chainEnd` on a cons. -/
theorem chainEnd_cons (c : Int) (s : Segment) (rest : List Segment) :
    chainEnd c (s :: rest) = chainEnd (s.endByte + 1) rest := rfl

/-- The initialization loop covers exactly `segSize * n + rem` bytes. -/
theorem buildSegs_chainEnd (ss r : Int) : ∀ (n : Nat) (cur : Int) (idStart : Nat), 1 ≤ n →
    chainEnd cur (buildSegs ss r cur idStart n) = cur + ss * (n : Int) + r := by
  intro n
  induction n with
  | zero => intro cur idStart h; omega
  | succ n ih =>
      intro cur idStart _
      cases n with
      | zero =>
          have e1 : buildSegs ss r cur idStart 1 =
              [Segment.make idStart cur (cur + (ss + r) - 1)] := rfl
          rw [e1, chainEnd_cons, chainEnd_nil]
          simp only [Segment.make]
          push_cast
          ring
      | succ m =>
          have e1 : buildSegs ss r cur idStart (m + 1 + 1) =
              Segment.make idStart cur (cur + ss - 1) ::
                buildSegs ss r (cur + ss) (idStart + 1) (m + 1) := rfl
          rw [e1, chainEnd_cons]
          have e2 : (Segment.make idStart cur (cur + ss - 1)).endByte + 1 = cur + ss := by
            simp only [Segment.make]
            ring
          rw [e2, ih (cur + ss) (idStart + 1) (Nat.succ_le_succ (Nat.zero_le m))]
          push_cast
          ring

/-- The initialization loop emits exactly `n` segments. -/
theorem buildSegs_length (ss r : Int) : ∀ (n : Nat) (cur : Int) (idStart : Nat),
    (buildSegs ss r cur idStart n).length = n := by
  intro n
  induction n with
  | zero => intro cur idStart; rfl
  | succ n ih => intro cur idStart; simp [buildSegs, ih]

/-- The last segment the initialization loop emits absorbs the remainder. -/
theorem buildSegs_last (ss r : Int) : ∀ (n : Nat) (cur : Int) (idStart : Nat),
    ((buildSegs ss r cur idStart (n + 1)).getLast?).map Segment.totalSize = some (ss + r) := by
  intro n
  induction n with
  | zero =>
      intro cur idStart
      have h : (Segment.make idStart cur (cur + (ss + r) - 1)).totalSize = ss + r := by
        simp only [Segment.make, Segment.totalSize]
        ring
      show some ((Segment.make idStart cur (cur + (ss + r) - 1)).totalSize) = some (ss + r)
      rw [h]
  | succ m ih =>
      intro cur idStart
      have e : buildSegs ss r cur idStart (m + 1 + 1) =
          Segment.make idStart cur (cur + ss - 1) ::
            buildSegs ss r (cur + ss) (idStart + 1) (m + 1) := rfl
      have e2 : buildSegs ss r (cur + ss) (idStart + 1) (m + 1) =
          Segment.make (idStart + 1) (cur + ss)
              ((cur + ss) + (if m = 0 then ss + r else ss) - 1) ::
            buildSegs ss r ((cur + ss) + (if m = 0 then ss + r else ss)) (idStart + 2) m :=
        rfl
      rw [e, e2, List.getLast?_cons_cons, ← e2]
      exact ih (cur + ss) (idStart + 1)

/-- The clamped segment count is at least one. -/
theorem clampCount_pos (c : Nat) : 1 ≤ clampCount c := by
  unfold clampCount Constants.MIN_SEGMENTS
  exact le_max_left 1 _

/-- The two halves a successful split yields chain exactly where the original
segment stood. -/
theorem split_halves (s : Segment) (nid : Nat) (d u : Segment)
    (h : Segment.split s nid = some (d, u)) :
    d.startByte = s.startByte ∧ u.startByte = d.endByte + 1 ∧ u.endByte = s.endByte := by
  unfold Segment.split at h
  split_ifs at h with hs
  simp only [Option.some.injEq, Prod.mk.injEq] at h
  obtain ⟨h1, h2⟩ := h
  subst h1
  subst h2
  refine ⟨rfl, ?_, rfl⟩
  simp only [Segment.make]
  omega

/-- One scheduler split preserves the partition. -/
theorem partitions_splitStep (segs segs' : List Segment) (total : Int)
    (hp : Partitions segs total) (hstep : SplitStep segs segs') :
    Partitions segs' total := by
  obtain ⟨l₁, l₂, s, nid, d, u, hdecomp, hsplit, hdecomp'⟩ := hstep
  obtain ⟨hd, hdu, hu⟩ := split_halves s nid d u hsplit
  obtain ⟨l, hperm, hchain, hend⟩ := hp
  have hsl : s ∈ l := by
    rw [hperm.mem_iff, hdecomp]
    exact List.mem_append_right l₁ (List.mem_cons_self s l₂)
  obtain ⟨la, lb, hl⟩ := List.append_of_mem hsl
  subst hl
  refine ⟨la ++ d :: u :: lb, ?_, ?_, ?_⟩
  · -- the new chain list is a permutation of segs' = l₁ ++ d :: l₂ ++ [u]
    have h1 : List.Perm (la ++ d :: u :: lb) (d :: u :: (la ++ lb)) := by
      have ha : List.Perm (la ++ d :: (u :: lb)) (d :: (la ++ (u :: lb))) :=
        List.perm_middle
      have hb : List.Perm (la ++ (u :: lb)) (u :: (la ++ lb)) := List.perm_middle
      exact ha.trans (List.Perm.cons d hb)
    have h2 : List.Perm (la ++ lb) (l₁ ++ l₂) := by
      have ha : List.Perm (s :: (la ++ lb)) (la ++ s :: lb) := List.perm_middle.symm
      have hb : List.Perm (l₁ ++ s :: l₂) (s :: (l₁ ++ l₂)) := List.perm_middle
      have hc : List.Perm (s :: (la ++ lb)) (s :: (l₁ ++ l₂)) :=
        ha.trans ((hdecomp ▸ hperm).trans hb)
      exact hc.cons_inv
    have h3 : List.Perm (l₁ ++ d :: l₂ ++ [u]) (d :: u :: (l₁ ++ l₂)) := by
      have ha : List.Perm (l₁ ++ (d :: l₂) ++ [u]) (u :: (l₁ ++ (d :: l₂))) :=
        List.perm_append_singleton u (l₁ ++ (d :: l₂))
      have hb : List.Perm (l₁ ++ (d :: l₂)) (d :: (l₁ ++ l₂)) := List.perm_middle
      have hc : List.Perm (u :: (l₁ ++ (d :: l₂))) (u :: (d :: (l₁ ++ l₂))) :=
        List.Perm.cons u hb
      exact (ha.trans hc).trans (List.Perm.swap d u (l₁ ++ l₂))
    rw [hdecomp']
    exact h1.trans ((List.Perm.cons d (List.Perm.cons u h2)).trans h3.symm)
  · rw [chainFrom_append] at hchain ⊢
    simp only [Bool.and_eq_true] at hchain ⊢
    obtain ⟨hpre, hcons⟩ := hchain
    refine ⟨hpre, ?_⟩
    simp only [chainFrom, Bool.and_eq_true, beq_iff_eq] at hcons ⊢
    obtain ⟨hstart, hrest⟩ := hcons
    refine ⟨by rw [hd, hstart], hdu, ?_⟩
    rw [hu]
    exact hrest
  · rw [chainEnd_append] at hend ⊢
    simp only [chainEnd] at hend ⊢
    rw [hu]
    exact hend

/-- Any number of scheduler splits preserves the partition. -/
theorem partitions_splits (segs segs' : List Segment) (total : Int)
    (hp : Partitions segs total)
    (h : Relation.ReflTransGen SplitStep segs segs') : Partitions segs' total := by
  induction h with
  | refl => exact hp
  | tail _ hstep ih => exact partitions_splitStep _ _ _ ih hstep

/-- C3 counterexample: `SegmentScheduler::initializeSegments` does not emit a
single whole-stream segment when `total_size ≤ 0` — called with size 0 and a
requested count of 8 it emits 8 (degenerate) segments, because the
single-segment decision lives in the caller (`DownloadTask`), not in
`initialize_segments` itself. -/
theorem initializeSegments_zero_size_counterexample :
    (SegmentScheduler.initializeSegments 0 8).segments.length = 8 ∧ (8 : Nat) ≠ 1 := by
  decide

/-- C3 amended: for every nonnegative total size and requested count,
`initializeSegments` partitions `[0, total_size)` contiguously with no gaps
or overlaps, the sizes sum to the total, the count is clamped to
`[MIN_SEGMENTS, MAX_SEGMENTS]` and the division remainder goes to the last
segment; the partition (and the size sum) is preserved by any number of
scheduler splits; and the single whole-stream segment for
`total_size ≤ 0` (or unsupported ranges) is produced by the download task's
segment initialization, which requests a count of 1. -/
theorem segments_partition_spec :
    (∀ (total : Int) (count : Nat), 0 ≤ total →
      Partitions (SegmentScheduler.initializeSegments total count).segments total ∧
      sizesSum (SegmentScheduler.initializeSegments total count).segments = total ∧
      (SegmentScheduler.initializeSegments total count).segments.length = clampCount count ∧
      ((SegmentScheduler.initializeSegments total count).segments.getLast?).map
          Segment.totalSize =
        some (total.tdiv ((clampCount count : Nat) : Int) +
              total.tmod ((clampCount count : Nat) : Int))) ∧
    (∀ (segs segs' : List Segment) (total : Int), Partitions segs total →
      Relation.ReflTransGen SplitStep segs segs' →
      Partitions segs' total ∧ sizesSum segs' = total) ∧
    (∀ (supportsRanges : Bool) (fileSize : Int),
      supportsRanges = false ∨ fileSize ≤ 0 →
      taskSegmentCount supportsRanges fileSize = 1 ∧
      (SegmentScheduler.initializeSegments fileSize
        (taskSegmentCount supportsRanges fileSize)).segments.length = 1) := by
  refine ⟨?_, ?_, ?_⟩
  · intro total count _
    have hpart : Partitions (SegmentScheduler.initializeSegments total count).segments total := by
      refine ⟨(SegmentScheduler.initializeSegments total count).segments,
              List.Perm.refl _, ?_, ?_⟩
      · simp only [SegmentScheduler.initializeSegments]
        exact buildSegs_chain _ _ _ _ _
      · simp only [SegmentScheduler.initializeSegments]
        rw [buildSegs_chainEnd _ _ (clampCount count) 0 0 (clampCount_pos count)]
        have h := Int.tdiv_add_tmod total ((clampCount count : Nat) : Int)
        linarith [mul_comm ((clampCount count : Nat) : Int)
          (total.tdiv ((clampCount count : Nat) : Int))]
    refine ⟨hpart, partitions_sizesSum _ _ hpart, ?_, ?_⟩
    · simp only [SegmentScheduler.initializeSegments]
      exact buildSegs_length _ _ _ _ _
    · obtain ⟨m, hm⟩ : ∃ m, clampCount count = m + 1 :=
        ⟨clampCount count - 1, by have := clampCount_pos count; omega⟩
      simp only [SegmentScheduler.initializeSegments]
      rw [hm]
      exact buildSegs_last _ _ m 0 0
  · intro segs segs' total hp h
    have := partitions_splits segs segs' total hp h
    exact ⟨this, partitions_sizesSum _ _ this⟩
  · intro supportsRanges fileSize h
    have hc : taskSegmentCount supportsRanges fileSize = 1 := by
      simp [taskSegmentCount, if_pos h]
    refine ⟨hc, ?_⟩
    rw [hc]
    exact buildSegs_length _ _ _ _ _

/-- Witness for C3: a 100-byte file in 4 segments, a real split of a 4 MiB
two-segment layout, and the no-ranges 5 MB single-segment case. -/
theorem segments_partition_spec_witness :
    (Partitions (SegmentScheduler.initializeSegments 100 4).segments 100 ∧
     sizesSum (SegmentScheduler.initializeSegments 100 4).segments = 100 ∧
     (SegmentScheduler.initializeSegments 100 4).segments.length = clampCount 4 ∧
     ((SegmentScheduler.initializeSegments 100 4).segments.getLast?).map Segment.totalSize =
       some ((100 : Int).tdiv ((clampCount 4 : Nat) : Int) +
             (100 : Int).tmod ((clampCount 4 : Nat) : Int))) ∧
    (Partitions splitDemoAfter 4194304 ∧ sizesSum splitDemoAfter = 4194304) ∧
    (taskSegmentCount false 5000000 = 1 ∧
     (SegmentScheduler.initializeSegments 5000000
       (taskSegmentCount false 5000000)).segments.length = 1) :=
  ⟨segments_partition_spec.1 100 4 (by decide),
   segments_partition_spec.2.1 splitDemoBefore splitDemoAfter 4194304
     ⟨splitDemoBefore, List.Perm.refl _, by decide, by decide⟩
     (Relation.ReflTransGen.single
       ⟨[], [Segment.make 1 2097152 4194303], Segment.make 0 0 2097151, 5, dDemo, uDemo,
        by decide, by decide, by decide⟩),
   segments_partition_spec.2.2 false 5000000 (Or.inl rfl)⟩

/-- Scan-step equation when the id resolves to no segment. -/
theorem findStep_of_none (st : SegmentScheduler) (acc : Option Segment × Int) (i : Nat)
    (h : st.getSegment i = none) : SegmentScheduler.findStep st acc i = acc := by
  unfold SegmentScheduler.findStep
  rw [h]

/-- Scan-step equation when the id resolves to a segment. -/
theorem findStep_of_some (st : SegmentScheduler) (acc : Option Segment × Int) (i : Nat)
    (s : Segment) (h : st.getSegment i = some s) :
    SegmentScheduler.findStep st acc i =
      if s.remainingBytes > acc.2 && s.isSplittable then (some s, s.remainingBytes)
      else acc := by
  unfold SegmentScheduler.findStep
  rw [h]

/-- The scan's running maximum never decreases in one step. -/
theorem findStep_mono (st : SegmentScheduler) (acc : Option Segment × Int) (i : Nat) :
    acc.2 ≤ (SegmentScheduler.findStep st acc i).2 := by
  cases hg : st.getSegment i with
  | none =>
      rw [findStep_of_none st acc i hg]
  | some s =>
      rw [findStep_of_some st acc i s hg]
      split_ifs with h
      · simp only [Bool.and_eq_true, decide_eq_true_eq] at h
        exact le_of_lt h.1
      · exact le_refl _

/-- The scan's running maximum never decreases along the fold. -/
theorem findFold_mono (st : SegmentScheduler) :
    ∀ (ids : List Nat) (acc : Option Segment × Int),
      acc.2 ≤ (ids.foldl (SegmentScheduler.findStep st) acc).2 := by
  intro ids
  induction ids with
  | nil => intro acc; exact le_refl _
  | cons i rest ih =>
      intro acc
      simp only [List.foldl_cons]
      exact le_trans (findStep_mono st acc i) (ih (SegmentScheduler.findStep st acc i))

/-- Every splittable segment the scan sees is dominated by the final
maximum. -/
theorem findFold_bound (st : SegmentScheduler) :
    ∀ (ids : List Nat) (acc : Option Segment × Int) (s : Segment),
      s ∈ ids.filterMap st.getSegment → s.isSplittable = true →
      s.remainingBytes ≤ (ids.foldl (SegmentScheduler.findStep st) acc).2 := by
  intro ids
  induction ids with
  | nil => intro acc s hs _; simp [List.filterMap_nil] at hs
  | cons i rest ih =>
      intro acc s hs hsp
      simp only [List.foldl_cons]
      cases hg : st.getSegment i with
      | none =>
          simp only [List.filterMap_cons, hg] at hs
          rw [findStep_of_none st acc i hg]
          exact ih acc s hs hsp
      | some s0 =>
          simp only [List.filterMap_cons, hg] at hs
          rw [findStep_of_some st acc i s0 hg]
          rcases List.mem_cons.mp hs with rfl | hs'
          · split_ifs with hcond
            · exact findFold_mono st rest (some s, s.remainingBytes)
            · simp only [Bool.and_eq_true, decide_eq_true_eq, hsp, and_true] at hcond
              exact le_trans (not_lt.mp hcond) (findFold_mono st rest acc)
          · exact ih _ s hs' hsp

/-- What the scan's accumulator can hold: a splittable active segment whose
remaining bytes are exactly the running maximum. -/
theorem findStep_inv (st : SegmentScheduler) (acc : Option Segment × Int) (i : Nat)
    (hacc : ∀ L, acc.1 = some L →
      L.remainingBytes = acc.2 ∧ L.isSplittable = true ∧ L ∈ activeSegs st)
    (hi : i ∈ st.activeSegments) :
    ∀ L, (SegmentScheduler.findStep st acc i).1 = some L →
      L.remainingBytes = (SegmentScheduler.findStep st acc i).2 ∧ L.isSplittable = true ∧
      L ∈ activeSegs st := by
  intro L hL
  cases hg : st.getSegment i with
  | none =>
      rw [findStep_of_none st acc i hg] at hL ⊢
      exact hacc L hL
  | some s0 =>
      rw [findStep_of_some st acc i s0 hg] at hL ⊢
      split_ifs at hL ⊢ with hcond
      · simp only [Option.some.injEq] at hL
        subst hL
        simp only [Bool.and_eq_true, decide_eq_true_eq] at hcond
        exact ⟨rfl, hcond.2, List.mem_filterMap.mpr ⟨i, hi, hg⟩⟩
      · exact hacc L hL

/-- The fold-level version of `findStep_inv`. -/
theorem findFold_inv (st : SegmentScheduler) :
    ∀ (ids : List Nat) (acc : Option Segment × Int),
      (∀ L, acc.1 = some L →
        L.remainingBytes = acc.2 ∧ L.isSplittable = true ∧ L ∈ activeSegs st) →
      (∀ i ∈ ids, i ∈ st.activeSegments) →
      ∀ L, (ids.foldl (SegmentScheduler.findStep st) acc).1 = some L →
        L.remainingBytes = (ids.foldl (SegmentScheduler.findStep st) acc).2 ∧
        L.isSplittable = true ∧ L ∈ activeSegs st := by
  intro ids
  induction ids with
  | nil => intro acc hacc _; exact hacc
  | cons i rest ih =>
      intro acc hacc hmem
      simp only [List.foldl_cons]
      exact ih (SegmentScheduler.findStep st acc i)
        (findStep_inv st acc i hacc (hmem i (List.mem_cons_self i rest)))
        (fun j hj => hmem j (List.mem_cons_of_mem i hj))

/-- `findLargestActiveSegment` returns an active splittable segment of
maximal remaining bytes. -/
theorem findLargest_spec (st : SegmentScheduler) (L : Segment)
    (h : st.findLargestActiveSegment = some L) :
    L ∈ activeSegs st ∧ L.isSplittable = true ∧
      ∀ s ∈ activeSegs st, s.isSplittable = true →
        s.remainingBytes ≤ L.remainingBytes := by
  unfold SegmentScheduler.findLargestActiveSegment at h
  have hsome := findFold_inv st st.activeSegments ((none : Option Segment), (0 : Int))
      (by intro L' hL'; simp at hL') (fun i hi => hi) L h
  refine ⟨hsome.2.2, hsome.2.1, ?_⟩
  intro s hs hsp
  have hb := findFold_bound st st.activeSegments ((none : Option Segment), (0 : Int)) s hs hsp
  rw [← hsome.1] at hb
  exact hb

/-- Without any splittable segment the scan yields nothing. -/
theorem findFold_noSplittable (st : SegmentScheduler) :
    ∀ (ids : List Nat),
      (∀ s ∈ ids.filterMap st.getSegment, s.isSplittable = false) →
      ids.foldl (SegmentScheduler.findStep st) ((none : Option Segment), (0 : Int)) = (none, 0) := by
  intro ids
  induction ids with
  | nil => intro _; rfl
  | cons i rest ih =>
      intro hns
      simp only [List.foldl_cons]
      cases hg : st.getSegment i with
      | none =>
          rw [findStep_of_none st _ i hg]
          refine ih ?_
          intro s hs
          obtain ⟨a, ha, hfa⟩ := List.mem_filterMap.mp hs
          exact hns s (List.mem_filterMap.mpr ⟨a, List.mem_cons_of_mem i ha, hfa⟩)
      | some s0 =>
          have h0 : s0.isSplittable = false :=
            hns s0 (List.mem_filterMap.mpr ⟨i, List.mem_cons_self i rest, hg⟩)
          rw [findStep_of_some st _ i s0 hg]
          have hc : (decide (s0.remainingBytes > (0 : Int)) && s0.isSplittable) = false := by
            rw [h0]
            exact Bool.and_false _
          rw [hc, if_neg Bool.false_ne_true]
          refine ih ?_
          intro s hs
          obtain ⟨a, ha, hfa⟩ := List.mem_filterMap.mp hs
          exact hns s (List.mem_filterMap.mpr ⟨a, List.mem_cons_of_mem i ha, hfa⟩)

/-- The segment returned by `getSegment` bears the id it was looked up by. -/
theorem getSegment_id (st : SegmentScheduler) (i : Nat) (L : Segment)
    (h : st.getSegment i = some L) : L.id = i := by
  unfold SegmentScheduler.getSegment at h
  have := List.find?_some h
  simpa using this

/-- Replacing the segment stored under an id in place (as `updateSegment`
does for the steal's donor) is visible through a subsequent lookup. -/
theorem find?_update_const (i : Nat) (d : Segment) (hd : d.id = i) :
    ∀ (l : List Segment) (L : Segment),
      l.find? (fun s => s.id = i) = some L →
      (l.map (fun s => if s.id = i then d else s)).find? (fun s => s.id = i) =
        some d := by
  intro l
  induction l with
  | nil => intro L h; simp at h
  | cons a t ih =>
      intro L h
      by_cases ha : a.id = i
      · simp only [List.map_cons, if_pos ha]
        rw [List.find?_cons_of_pos _ (by simp [hd])]
      · have hpa : (fun s : Segment => decide (s.id = i)) a = false := by
          simp [ha]
        rw [List.find?_cons_of_neg t (by simp [ha])] at h
        simp only [List.map_cons, if_neg ha]
        rw [List.find?_cons_of_neg _ (by simp [ha])]
        exact ih L h

/-- C5: `stealWork` either succeeds and then behaves exactly as specified —
it split the largest splittable Active segment at the midpoint of its
remaining bytes, handed the Active upper half with a fresh id to the caller
and shrank the donor's end to `midpoint − 1` — or, when no Active segment has
`remaining ≥ 2 × MIN_STEAL_SIZE`, returns `none` and mutates nothing. -/
theorem stealWork_spec :
    (∀ (st : SegmentScheduler) (w : Nat) (u : Segment) (st' : SegmentScheduler),
      st.stealWork w = (some u, st') → StealSuccessSpec st w u st') ∧
    (∀ (st : SegmentScheduler) (w : Nat),
      (∀ s ∈ activeSegs st, s.isSplittable = false) →
      st.stealWork w = (none, st)) := by
  constructor
  · intro st w u st' h
    unfold SegmentScheduler.stealWork at h
    by_cases hb : (st.paused || st.cancelled) = true
    · rw [if_pos hb] at h
      simp at h
    · rw [if_neg hb] at h
      cases hL : st.findLargestActiveSegment with
      | none => rw [hL] at h; simp at h
      | some L =>
          rw [hL] at h
          dsimp only at h
          obtain ⟨hLmem, hLsp, hLmax⟩ := findLargest_spec st L hL
          have hns : (!L.isSplittable) = false := by rw [hLsp]; rfl
          rw [hns, if_neg Bool.false_ne_true] at h
          have hspl : L.split st.nextSegmentId =
              some ({ L with endByte := L.currentByte + L.remainingBytes / 2 - 1 },
                    Segment.make st.nextSegmentId
                      (L.currentByte + L.remainingBytes / 2) L.endByte) := by
            unfold Segment.split
            rw [if_pos hLsp]
          rw [hspl] at h
          dsimp only at h
          simp only [Prod.mk.injEq, Option.some.injEq] at h
          obtain ⟨hu, hst⟩ := h
          subst hu
          subst hst
          -- the donor is still found under its id
          have hgi : st.segments.find? (fun s => s.id = L.id) = some L := by
            obtain ⟨i, hi, hgi0⟩ := List.mem_filterMap.mp hLmem
            have hid := getSegment_id st i L hgi0
            rw [← hid] at hgi0
            exact hgi0
          refine ⟨L, hLmem, hLsp, hLmax, rfl, rfl, rfl, rfl, rfl, ?_, ?_, rfl, ?_, rfl⟩
          · -- lookup in (updated segments ++ [upper half])
            show SegmentScheduler.getSegment _ L.id = _
            unfold SegmentScheduler.getSegment
            dsimp only [SegmentScheduler.setAssignment, SegmentScheduler.updateSegment]
            rw [List.find?_append,
                find?_update_const L.id
                  { L with endByte := L.currentByte + L.remainingBytes / 2 - 1 } rfl
                  st.segments L hgi]
            rfl
          · exact List.mem_append_right _ (List.mem_singleton_self _)
          · exact List.mem_cons_self _ _
  · intro st w h
    unfold SegmentScheduler.stealWork
    by_cases hb : (st.paused || st.cancelled) = true
    · rw [if_pos hb]
    · rw [if_neg hb]
      have hfl : st.findLargestActiveSegment = none := by
        unfold SegmentScheduler.findLargestActiveSegment
        rw [findFold_noSplittable st st.activeSegments h]
      rw [hfl]

/-- Witness for C5: worker 1 steals from `stC5` (donor `aC5`, upper half
`uC5`), and stealing from `stNoSteal` (whose one Active segment is 1000
bytes) returns `none` and leaves the scheduler untouched. -/
theorem stealWork_spec_witness :
    StealSuccessSpec stC5 1 uC5 stC5' ∧
    stNoSteal.stealWork 1 = (none, stNoSteal) :=
  ⟨stealWork_spec.1 stC5 1 uC5 stC5' (by decide),
   stealWork_spec.2 stNoSteal 1 (by decide)⟩

/-- With positive reads only, copying under capacity `c` either aborts on a
short write or copies the whole file while staying within the capacity. -/
theorem copy_pos (c : Int) : ∀ (l : List Int) (used : Int), used ≤ c → (∀ r ∈ l, 0 < r) →
    (∃ u', copyTempFile (some c) used l = (false, u')) ∨
    (copyTempFile (some c) used l = (true, used + sumReads l) ∧
      used + sumReads l ≤ c) := by
  intro l
  induction l with
  | nil =>
      intro used hu _
      right
      have h0 : sumReads [] = 0 := rfl
      refine ⟨?_, ?_⟩
      · show (true, used) = (true, used + sumReads [])
        rw [h0, add_zero]
      · rw [h0]
        omega
  | cons r rest ih =>
      intro used hu hpos
      have hr : 0 < r := hpos r (List.mem_cons_self r rest)
      simp only [copyTempFile]
      rw [if_neg (by omega : ¬ r ≤ 0)]
      by_cases hw : writeToOutput (some c) used r ≠ r
      · rw [if_pos hw]
        left
        exact ⟨used, rfl⟩
      · rw [if_neg hw]
        push_neg at hw
        have hw2 : min r (c - used) = r := hw
        have hrc : used + r ≤ c := by
          have h3 : r ≤ c - used := by
            rw [← hw2]
            exact min_le_right _ _
          omega
        have hsum : sumReads (r :: rest) = r + sumReads rest := rfl
        rcases ih (used + r) hrc (fun x hx => hpos x (List.mem_cons_of_mem r hx)) with
          ⟨u', hfail⟩ | ⟨hok, hle⟩
        · left
          exact ⟨u', hfail⟩
        · right
          rw [hsum]
          constructor
          · rw [hok]
            have e : used + r + sumReads rest = used + (r + sumReads rest) := by ring
            rw [e]
          · omega

/-- When the positive reads exceed the capacity, the merge loop aborts. -/
theorem mergeFiles_overflow (c : Int) :
    ∀ (files : List (Option (List Int))) (used : Int), used ≤ c →
      (∀ f ∈ files, ∃ l, f = some l ∧ ∀ r ∈ l, 0 < r) →
      c < used + readsTotal files →
      (mergeFiles (some c) used files).1 = false := by
  intro files
  induction files with
  | nil =>
      intro used hu _ hlt
      simp only [readsTotal] at hlt
      omega
  | cons f rest ih =>
      intro used hu hall hlt
      obtain ⟨l, rfl, hpos⟩ := hall f (List.mem_cons_self f rest)
      simp only [mergeFiles]
      rcases copy_pos c l used hu hpos with ⟨u', hfail⟩ | ⟨hok, hle⟩
      · rw [hfail]
      · rw [hok]
        refine ih (used + sumReads l) hle
          (fun g hg => hall g (List.mem_cons_of_mem _ hg)) ?_
        simp only [readsTotal] at hlt
        omega

/-- A temp file that fails to open forces the merge loop to abort. -/
theorem mergeFiles_openFail (cap : Option Int) :
    ∀ (files : List (Option (List Int))) (used : Int), none ∈ files →
      (mergeFiles cap used files).1 = false := by
  intro files
  induction files with
  | nil => intro used h; cases h
  | cons f rest ih =>
      intro used h
      cases f with
      | none => rfl
      | some l =>
          have hrest : none ∈ rest := by
            rcases List.mem_cons.mp h with h' | h'
            · cases h'
            · exact h'
          simp only [mergeFiles]
          cases hc : copyTempFile cap used l with
          | mk b u' =>
              cases b with
              | true => exact ih u' hrest
              | false => rfl

/-- A merge whose loop aborted reports failure and deletes the final file. -/
theorem mergeSegments_of_loopFail (cap : Option Int) (files : List (Option (List Int)))
    (h : (mergeFiles cap 0 files).1 = false) :
    mergeSegments cap files = (false, none) := by
  unfold mergeSegments
  cases hres : mergeFiles cap 0 files with
  | mk b u =>
      rw [hres] at h
      cases b with
      | true => exact Bool.noConfusion h
      | false => rfl

/-- C7 counterexample: a failed read (`read() ≤ 0` before the end of the
temp file) does not abort the merge — the loop merely breaks out of that
segment's copy.  Segment one ([0,199], 200 bytes) delivers a 100-byte read
and then a read failure; segment two delivers its 50 bytes; the merge still
reports success, keeps the truncated 150-byte final file (250 bytes were
expected) and the task proceeds to Verifying instead of Failed/FileSystem. -/
theorem merge_short_read_counterexample :
    mergeSegments none [some tempA, some tempB] = (true, some 150) ∧
    taskAfterMergeOutcome (mergeSegments none [some tempA, some tempB]).1 =
      (DownloadState.Verifying, ErrorCategory.NoError) ∧
    (150 : Int) ≠ 250 := by
  decide

/-- C7 amended: segment temp files are concatenated in ascending `startByte`
order into the final file, and a temp file that fails to open or a write
that falls short of the requested size aborts the merge, deletes the
partially-written final file (a failed merge never leaves the final file
behind) and transitions the task to Failed with the FileSystem category —
but a read that falls short (a failed read, `read() ≤ 0`) only ends that
segment's copy, and the merge continues and can report success. -/
theorem merge_spec :
    (∀ (cap : Option Int) (files : List (Option (List Int))),
      (mergeSegments cap files).1 = false → (mergeSegments cap files).2 = none) ∧
    (∀ (cap : Option Int) (files : List (Option (List Int))),
      none ∈ files → mergeSegments cap files = (false, none)) ∧
    (∀ (c : Int) (files : List (Option (List Int))),
      0 ≤ c →
      (∀ f ∈ files, ∃ l, f = some l ∧ ∀ r ∈ l, 0 < r) →
      c < readsTotal files →
      mergeSegments (some c) files = (false, none)) ∧
    (∀ (cap : Option Int) (used r : Int) (rest : List Int), r ≤ 0 →
      copyTempFile cap used (r :: rest) = (true, used)) ∧
    (∀ segs : List Segment,
      (sortByStart segs).Sorted startLE ∧ List.Perm (sortByStart segs) segs ∧
      ∀ (cap : Option Int) (fileOf : Nat → Option (List Int)),
        mergeTask cap segs fileOf =
          mergeSegments cap ((sortByStart segs).map (fun s => fileOf s.id))) ∧
    taskAfterMergeOutcome false = (DownloadState.Failed, ErrorCategory.FileSystem) := by
  refine ⟨?_, ?_, ?_, ?_, ?_, rfl⟩
  · intro cap files h
    unfold mergeSegments at h ⊢
    cases hres : mergeFiles cap 0 files with
    | mk b u =>
        rw [hres] at h
        cases b with
        | true => exact Bool.noConfusion h
        | false => rfl
  · intro cap files h
    exact mergeSegments_of_loopFail cap files (mergeFiles_openFail cap files 0 h)
  · intro c files hc hall hlt
    refine mergeSegments_of_loopFail (some c) files ?_
    exact mergeFiles_overflow c files 0 hc hall (by omega)
  · intro cap used r rest h
    simp only [copyTempFile, if_pos h]
  · intro segs
    exact ⟨List.sorted_insertionSort startLE segs,
           List.perm_insertionSort startLE segs, fun cap fileOf => rfl⟩

/-- Witness for C7's amended statement: an unopenable file, a disk-full
short write, a read failure, and the out-of-order two-segment layout. -/
theorem merge_spec_witness :
    (mergeSegments none [(none : Option (List Int))]).2 = none ∧
    mergeSegments none [some [5], none] = (false, none) ∧
    mergeSegments (some 10) [some [7, 7]] = (false, none) ∧
    copyTempFile none 3 [-1, 4] = (true, 3) ∧
    ((sortByStart mergeOrderDemo).Sorted startLE ∧
      List.Perm (sortByStart mergeOrderDemo) mergeOrderDemo ∧
      ∀ (cap : Option Int) (fileOf : Nat → Option (List Int)),
        mergeTask cap mergeOrderDemo fileOf =
          mergeSegments cap ((sortByStart mergeOrderDemo).map (fun s => fileOf s.id))) :=
  ⟨merge_spec.1 none [none] (by decide),
   merge_spec.2.1 none [some [5], none] (by decide),
   merge_spec.2.2.1 10 [some [7, 7]] (by decide)
     (by
       intro f hf
       simp only [List.mem_singleton] at hf
       subst hf
       exact ⟨[7, 7], rfl, by decide⟩)
     (by decide),
   merge_spec.2.2.2.1 none 3 (-1) [4] (by decide),
   merge_spec.2.2.2.2.1 mergeOrderDemo⟩

end OpenIDM
